import Mathlib

/-!
Shallow embedding of `main.py` from the cosina-voigtlander-scraper
repository, together with proofs checking the natural-language
specification against it.

Strings are modelled as `List Char` (Lean `String.data`); Python string
operations (`in`, `replace`, `split`, `startswith`, `rstrip`, slicing)
are translated to explicit list functions below.  The regular
expressions used by the source (`[\d\.]+`, `(\d+)群(\d+)枚`,
`1 ?: ?([\d\.]+)`) are small enough to be translated directly into
recursive scanners; `\d` is modelled as an ASCII digit.  Python `float`
is modelled by exact rational parsing of plain decimal literals
(`pyFloat`); a raised exception is modelled as `Option.none`.
-/

/- ### String machinery -/

/-- Python substring test `pat in s` on character lists. -/
def containsSub (pat : List Char) : List Char → Bool
  | [] => pat.isPrefixOf []
  | c :: r => pat.isPrefixOf (c :: r) || containsSub pat r

/-- First occurrence of `pat` in `s`: returns the text before the
occurrence and the text after it, or `none` if `pat` does not occur. -/
def firstOcc (pat : List Char) : List Char → Option (List Char × List Char)
  | [] => if pat.isPrefixOf [] then some ([], []) else none
  | c :: r =>
    if pat.isPrefixOf (c :: r) then some ([], List.drop pat.length (c :: r))
    else
      match firstOcc pat r with
      | none => none
      | some (b, a) => some (c :: b, a)

/-- Python `s.split(pat)` for a non-empty separator `pat` (the guarded
`pat = []` branch is unreachable in the embedded program: Python raises
on an empty separator and the source only splits on a fixed non-empty
marker). -/
def splitOnL (pat : List Char) (s : List Char) : List (List Char) :=
  if hp : pat = [] then [s]
  else
    match hfo : firstOcc pat s with
    | none => [s]
    | some (b, a) => b :: splitOnL pat a
termination_by s.length
decreasing_by
  have key : ∀ (t u v : List Char), firstOcc pat t = some (u, v) → v.length < t.length := by
    intro t
    induction t with
    | nil =>
      intro u v h
      have hpre : pat.isPrefixOf ([] : List Char) = false := by
        cases pat with
        | nil => exact absurd rfl hp
        | cons x xs => rfl
      simp [firstOcc, hpre] at h
    | cons c r ih =>
      intro u v h
      by_cases hpre : pat.isPrefixOf (c :: r)
      · simp [firstOcc, hpre] at h
        have hlen : 1 ≤ pat.length := List.length_pos.mpr hp
        rw [← h.2]
        simp [List.length_drop]
        omega
      · simp [firstOcc, hpre] at h
        cases hfo2 : firstOcc pat r with
        | none => rw [hfo2] at h; simp at h
        | some p =>
          obtain ⟨u', v'⟩ := p
          rw [hfo2] at h
          simp at h
          have := ih u' v' hfo2
          rw [← h.2]
          simp only [List.length_cons]
          omega
  exact key s b a hfo

/-- Fuel-driven structural twin of `splitOnL`, so that concrete values
can be computed by kernel reduction (`decide`); `splitFuel_eq` below
shows agreement whenever the fuel covers the input length. -/
def splitFuel (pat : List Char) : Nat → List Char → List (List Char)
  | _, [] => [[]]
  | 0, s => [s]
  | f + 1, c :: r =>
    if pat.isPrefixOf (c :: r) then
      [] :: splitFuel pat f (List.drop pat.length (c :: r))
    else
      match splitFuel pat f r with
      | [] => [[c]]
      | sg :: rest => (c :: sg) :: rest

/-- `splitFuel` with just enough fuel. -/
def splitOnF (pat s : List Char) : List (List Char) := splitFuel pat s.length s

/-- Python `s.replace(pat, rep)` for a non-empty `pat`: equals joining
the split segments with `rep`. -/
def replaceAll (pat rep s : List Char) : List Char :=
  List.intercalate rep (splitOnL pat s)

/-- Python `s.rstrip("/")`: drop all trailing slashes. -/
def rstripSlash (s : List Char) : List Char :=
  (s.reverse.dropWhile (fun c => c = '/')).reverse

/-- Character class of the regex `[\d\.]`. -/
def digitDot (c : Char) : Bool := c.isDigit || c = '.'

/-- Scanner for `re.findall(r"[\d\.]+", s)`: `cur` holds the reversed
run of class characters currently being read. -/
def findallAux : List Char → List Char → List (List Char)
  | [], cur => if cur = [] then [] else [cur.reverse]
  | c :: r, cur =>
    if digitDot c then findallAux r (c :: cur)
    else if cur = [] then findallAux r [] else cur.reverse :: findallAux r []

/-- Python `re.findall(r"[\d\.]+", s)`: maximal runs of digits/dots. -/
def findallNum (s : List Char) : List (List Char) := findallAux s []

/-- Decimal digits to a natural number (most significant first). -/
def digitsToNat (cs : List Char) : Nat :=
  cs.foldl (fun n c => 10 * n + (c.toNat - 48)) 0

/-- Body of a decimal literal: `digits`, `digits.`, `.digits` or
`digits.digits`, with at least one digit and nothing else. -/
def parseDec (cs : List Char) : Option ℚ :=
  let ip := cs.takeWhile Char.isDigit
  let r1 := cs.dropWhile Char.isDigit
  match r1 with
  | [] => if ip = [] then none else some ((digitsToNat ip : ℚ))
  | '.' :: r2 =>
    let fp := r2.takeWhile Char.isDigit
    let r3 := r2.dropWhile Char.isDigit
    if r3 = [] ∧ (ip ≠ [] ∨ fp ≠ []) then
      some (Rat.divInt (digitsToNat (ip ++ fp)) (10 ^ fp.length))
    else none
  | _ => none

/-- Python `float(s)` restricted to optional surrounding whitespace, an
optional sign and a plain decimal literal, read as an exact rational
(the idealization of IEEE doubles by exact rationals is harmless for the
comparisons the program performs); `none` models a raised `ValueError`.
Exponent forms, underscores, `inf` and `nan` are outside the model. -/
def pyFloat (cs : List Char) : Option ℚ :=
  let t := ((cs.dropWhile Char.isWhitespace).reverse.dropWhile Char.isWhitespace).reverse
  match t with
  | '+' :: r => parseDec r
  | '-' :: r => (parseDec r).map (fun q => -q)
  | _ => parseDec t

/- ### Field normalizers (main.py lines 57-107) -/

/-- The literal `"mm"` stripped by `format_focal`. -/
def mmL : List Char := ['m', 'm']

/-- The literal `"約"` ("approximately") stripped by `format_focal`. -/
def ykL : List Char := ['約']

/-- The full-frame-equivalent marker `dx` of `format_focal` (line 87). -/
def dxL : List Char := "フルサイズ換算:".data

/-- English translation the marker is replaced with (line 92). -/
def engL : List Char := "full frame equivalent: ".data

/-- Band classification of the focal-length sort value
(main.py lines 98-105). -/
def focalColor (q : ℚ) : String :=
  if q < 21 then "fdd"
  else if q < 40 then "fed"
  else if q < 65 then "ffd"
  else "dfd"

/-- The two `str.replace` calls at the top of `format_focal`
(lines 85-86): strip `"mm"`, then `"約"`. -/
def stripFocal (value : String) : List Char :=
  replaceAll ykL [] (replaceAll mmL [] value.data)

/-- `format_focal` (main.py lines 84-107).  `none` models a raised
exception (`float` failing on the extracted value, or the impossible
`[1]` index error). -/
def format_focal (value : String) : Option String :=
  let v := stripFocal value
  if containsSub dxL v then
    match splitOnL dxL v with
    | _ :: seg :: _ =>
      match pyFloat seg.dropLast with
      | none => none
      | some q =>
        some (String.mk ("! style = \"background:#".data ++ (focalColor q).data
          ++ ";\" data-sort-value=\"".data ++ seg.dropLast ++ "\"|".data
          ++ replaceAll dxL engL v))
    | _ => none
  else
    match pyFloat v with
    | none => none
    | some q =>
      some (String.mk ("! style = \"background:#".data ++ (focalColor q).data
        ++ ";\" |".data ++ v))

/-- `re.match(r"(\d+)群(\d+)枚", s)`: anchored prefix match returning
the two digit groups. -/
def lensConstParse (cs : List Char) : Option (List Char × List Char) :=
  let g := cs.takeWhile Char.isDigit
  let r1 := cs.dropWhile Char.isDigit
  if g = [] then none
  else
    match r1 with
    | '群' :: r2 =>
      let e := r2.takeWhile Char.isDigit
      let r3 := r2.dropWhile Char.isDigit
      if e = [] then none
      else
        match r3 with
        | '枚' :: _ => some (g, e)
        | _ => none
    | _ => none

/-- `format_lens_const` (main.py lines 58-63). -/
def format_lens_const (s : String) : String :=
  match lensConstParse s.data with
  | some (g, e) => String.mk (e ++ "e/".data ++ g ++ "g".data)
  | none => s

/-- The unit mapping `{"m": "m|ft"}.get(unit, unit)` (line 70). -/
def unit_target (u : String) : String := if u = "m" then "m|ft" else u

/-- `format_cvt` (main.py lines 67-75). -/
def format_cvt (value unit : String) : String :=
  let nums := findallNum value.data
  let ut := unit_target unit
  if value.data.contains '×' then
    String.mk ("\x7b\x7bcvt|".data ++ List.intercalate "|×|".data nums
      ++ "|".data ++ ut.data ++ "\x7d\x7d".data)
  else
    match nums with
    | n :: _ =>
      String.mk ("\x7b\x7bcvt|".data ++ n ++ "|".data ++ ut.data ++ "\x7d\x7d".data)
    | [] => value

/-- Consume one optional ASCII space (the `" ?"` of the f-number regex). -/
def skipSpace : List Char → List Char
  | ' ' :: r => r
  | r => r

/-- Attempt of the regex `1 ?: ?([\d\.]+)` anchored at the head of the
list, returning the captured group.  (The optional spaces are
deterministic here: a space can never start the `:` or the group.) -/
def fnumGroupAt : List Char → Option (List Char)
  | '1' :: r =>
    match skipSpace r with
    | ':' :: r2 =>
      let g := (skipSpace r2).takeWhile digitDot
      if g = [] then none else some g
    | _ => none
  | _ => none

/-- `re.search` of the f-number pattern: leftmost match. -/
def fnumSearch : List Char → Option (List Char)
  | [] => none
  | c :: r => (fnumGroupAt (c :: r)).or (fnumSearch r)

/-- `format_f_number` (main.py lines 79-81). -/
def format_f_number (value : String) : String :=
  match fnumSearch value.data with
  | some g => String.mk ("\x7b\x7bf/|".data ++ g ++ "\x7d\x7d".data)
  | none => value

/- ### Site navigator (main.py lines 32-54) -/

/-- The keep condition of `get_lens_links` (line 52):
`link.startswith(mount_url) and link.rstrip("/") != mount_url.rstrip("/")`. -/
def keepLensLink (mount link : String) : Bool :=
  mount.data.isPrefixOf link.data
    && decide (rstripSlash link.data ≠ rstripSlash mount.data)

/-- `get_lens_links` (main.py lines 46-54), with the page's anchor
hrefs passed in explicitly (HTML parsing is an external capability; the
selector `a[href*="voigtlander"]` keeps hrefs containing the marker).
The Python `set` is modelled as a deduplicated list. -/
def get_lens_links (mount : String) (hrefs : List String) : List String :=
  (hrefs.filter
    (fun l => containsSub "voigtlander".data l.data && keepLensLink mount l)).dedup

/-- Python-dict insertion on an association list: updating an existing
key keeps its position, a new key is appended. -/
def dictInsert : List (String × String) → String → String → List (String × String)
  | [], k, v => [(k, v)]
  | p :: rest, k, v =>
    if p.1 = k then (k, v) :: rest else p :: dictInsert rest k v

/-- Dictionary lookup on an association list. -/
def dictGet (d : List (String × String)) (k : String) : Option String :=
  (d.find? (fun p => p.1 = k)).map (fun p => p.2)

/-- `get_mount_pages` (main.py lines 32-42), with the homepage's
(display name, href) link pairs passed in explicitly in document
order. -/
def get_mount_pages (items : List (String × String)) : List (String × String) :=
  items.foldl
    (fun d p => if p.1 = "ACCESSORIES" then d else dictInsert d p.1 p.2) []

/- ### Fetch cache (main.py lines 13-28) -/

/-- Outcome of the HTTP GET: a successful body, or a status for which
`raise_for_status` raises. -/
inductive HttpResponse where
  | success (body : String)
  | failure
deriving DecidableEq

/-- Result of `fetch_with_cache`: a body, or a propagated fetch error;
either way the resulting cache store is carried along. -/
inductive FetchResult where
  | ok (body : String) (cache : List (String × String))
  | error (cache : List (String × String))
deriving DecidableEq

/-- Cache-store lookup (the `os.path.exists`/read of lines 17-19). -/
def lookupCache (cache : List (String × String)) (k : String) : Option String :=
  (cache.find? (fun p => p.1 = k)).map (fun p => p.2)

/-- `fetch_with_cache` (main.py lines 13-28).  `key` is the
content-addressing function (`md5` hex digest in the source, an external
pure function of the URL), `net` the HTTP GET, `cache` the on-disk
store.  The second component records whether a network call happened. -/
def fetch_with_cache (key : String → String) (net : String → HttpResponse)
    (cache : List (String × String)) (url : String) : FetchResult × Bool :=
  let k := key url
  match lookupCache cache k with
  | some body => (FetchResult.ok body cache, false)
  | none =>
    match net url with
    | HttpResponse.failure => (FetchResult.error cache, true)
    | HttpResponse.success body => (FetchResult.ok body ((k, body) :: cache), true)

/- ### Table renderer sort (main.py lines 158-160) -/

/-- One scraped lens record (the dict built by `parse_lens_page`),
with one optional field per recognized specification label. -/
structure LensRecord where
  reference : String
  name : String
  focal_length : Option String
  f_number : Option String
  min_focus : Option String
  lens_const : Option String
  aperture_blades : Option String
  dimensions : Option String
  weight : Option String
  filter_size : Option String

/-- The sort key of `crawl_mount` (line 159):
`float(re.findall(r"[\d\.]+", x.get("focal_length", "0"))[0])`.
`none` models a raised exception (empty `findall`, or `float` failing
on the first token). -/
def focalSortKey (fl : Option String) : Option ℚ :=
  match findallNum (fl.getD "0").data with
  | [] => none
  | tok :: _ => pyFloat tok

/-- Total version of the sort key used to state the ordering (agrees
with `focalSortKey` wherever the latter does not raise). -/
def recKey (r : LensRecord) : ℚ := (focalSortKey r.focal_length).getD 0

/-- `lenses.sort(key=...)` (lines 158-160): Python `list.sort` is a
stable comparison sort, modelled by `List.mergeSort`; it raises
(`none`) as soon as some record's key computation raises. -/
def sortLenses (rs : List LensRecord) : Option (List LensRecord) :=
  if rs.all (fun r => (focalSortKey r.focal_length).isSome) then
    some (rs.mergeSort (fun a b => decide (recKey a ≤ recKey b)))
  else none

/- ### Lemmas about the string machinery -/

/-- Length of `dropWhile` never exceeds the input length. -/
theorem dropWhile_length_le {α : Type} (p : α → Bool) (l : List α) :
    (l.dropWhile p).length ≤ l.length := by
  induction l with
  | nil => simp
  | cons c r ih =>
    by_cases h : p c
    · simpa [List.dropWhile, h] using Nat.le_succ_of_le ih
    · simp [List.dropWhile, h]

theorem splitOnL_eq_of_none {pat s : List Char} (hp : pat ≠ [])
    (h : firstOcc pat s = none) : splitOnL pat s = [s] := by
  rw [splitOnL.eq_def, dif_neg hp]
  split <;> simp_all

theorem splitOnL_eq_of_some {pat s b a : List Char} (hp : pat ≠ [])
    (h : firstOcc pat s = some (b, a)) :
    splitOnL pat s = b :: splitOnL pat a := by
  rw [splitOnL.eq_def, dif_neg hp]
  split <;> simp_all

theorem containsSub_eq_isSome (pat s : List Char) :
    containsSub pat s = (firstOcc pat s).isSome := by
  induction s with
  | nil =>
    by_cases h : pat.isPrefixOf ([] : List Char) <;> simp [containsSub, firstOcc, h]
  | cons c r ih =>
    by_cases h : pat.isPrefixOf (c :: r)
    · simp [containsSub, firstOcc, h]
    · simp only [containsSub, firstOcc, h, if_neg, Bool.false_or, ih]
      match firstOcc pat r with
      | none => simp
      | some (b, a) => simp

theorem firstOcc_nil_of_ne {pat : List Char} (hp : pat ≠ []) :
    firstOcc pat ([] : List Char) = none := by
  have hpre : pat.isPrefixOf ([] : List Char) = false := by
    cases pat with
    | nil => exact absurd rfl hp
    | cons x xs => rfl
  simp [firstOcc, hpre]

theorem splitFuel_eq (pat : List Char) (hp : pat ≠ []) :
    ∀ (f : Nat) (s : List Char), s.length ≤ f → splitFuel pat f s = splitOnL pat s := by
  intro f
  induction f with
  | zero =>
    intro s hs
    have : s = [] := List.length_eq_zero.mp (Nat.le_zero.mp hs)
    subst this
    rw [splitOnL_eq_of_none hp (firstOcc_nil_of_ne hp)]
    rfl
  | succ f ih =>
    intro s hs
    match s with
    | [] =>
      rw [splitOnL_eq_of_none hp (firstOcc_nil_of_ne hp)]
      rfl
    | c :: r =>
      by_cases hpre : pat.isPrefixOf (c :: r)
      · have hocc : firstOcc pat (c :: r) = some ([], List.drop pat.length (c :: r)) := by
          simp [firstOcc, hpre]
        rw [splitOnL_eq_of_some hp hocc]
        have hlen : 1 ≤ pat.length := List.length_pos.mpr hp
        have hdrop : (List.drop pat.length (c :: r)).length ≤ f := by
          simp only [List.length_drop, List.length_cons]
          simp only [List.length_cons] at hs
          omega
        simp only [splitFuel]
        rw [if_pos hpre, ih _ hdrop]
      · have hr : r.length ≤ f := by
          simp only [List.length_cons] at hs
          omega
        simp only [splitFuel]
        rw [if_neg hpre, ih r hr]
        match hocc : firstOcc pat r with
        | none =>
          rw [splitOnL_eq_of_none hp hocc]
          have hocc2 : firstOcc pat (c :: r) = none := by
            simp [firstOcc, hpre, hocc]
          rw [splitOnL_eq_of_none hp hocc2]
        | some (b, a) =>
          rw [splitOnL_eq_of_some hp hocc]
          have hocc2 : firstOcc pat (c :: r) = some (c :: b, a) := by
            simp [firstOcc, hpre, hocc]
          rw [splitOnL_eq_of_some hp hocc2]

theorem splitOnL_eq_splitOnF {pat : List Char} (hp : pat ≠ []) (s : List Char) :
    splitOnL pat s = splitOnF pat s :=
  (splitFuel_eq pat hp s.length s (Nat.le_refl _)).symm

theorem intercalate_one (sep x : List Char) : List.intercalate sep [x] = x := by
  simp [List.intercalate]

theorem intercalate_two (sep a b : List Char) :
    List.intercalate sep [a, b] = a ++ sep ++ b := by
  simp [List.intercalate, List.intersperse]

theorem replaceAll_of_not_contains {pat s : List Char} (rep : List Char)
    (h : containsSub pat s = false) : replaceAll pat rep s = s := by
  by_cases hp : pat = []
  · subst hp
    unfold replaceAll
    rw [splitOnL.eq_def, dif_pos rfl]
    exact intercalate_one rep s
  · have hocc : firstOcc pat s = none := by
      rw [containsSub_eq_isSome] at h
      cases hfo : firstOcc pat s with
      | none => rfl
      | some p => rw [hfo] at h; simp at h
    unfold replaceAll
    rw [splitOnL_eq_of_none hp hocc]
    exact intercalate_one rep s

theorem format_focal_marker (v : String) (pre seg : List Char) (q : ℚ)
    (hs : splitOnL dxL (stripFocal v) = [pre, seg])
    (hq : pyFloat seg.dropLast = some q) :
    format_focal v = some (String.mk ("! style = \"background:#".data
      ++ (focalColor q).data ++ ";\" data-sort-value=\"".data ++ seg.dropLast
      ++ "\"|".data ++ (pre ++ engL ++ seg))) := by
  have hne : dxL ≠ [] := by decide
  have hocc : (firstOcc dxL (stripFocal v)).isSome := by
    cases hfo : firstOcc dxL (stripFocal v) with
    | none =>
      rw [splitOnL_eq_of_none hne hfo] at hs
      simp at hs
    | some p => simp
  have hcon : containsSub dxL (stripFocal v) = true := by
    rw [containsSub_eq_isSome]
    exact hocc
  simp only [format_focal, hcon, if_true, hs, hq, replaceAll]
  simp [intercalate_two]

theorem format_focal_plain (v : String)
    (hcon : containsSub dxL (stripFocal v) = false) :
    format_focal v = (pyFloat (stripFocal v)).map (fun q =>
      String.mk ("! style = \"background:#".data ++ (focalColor q).data
        ++ ";\" |".data ++ stripFocal v)) := by
  simp only [format_focal, hcon, Bool.false_eq_true, if_false]
  cases pyFloat (stripFocal v) <;> simp

theorem takeWhile_append_cons {p : Char → Bool} {l : List Char} (c : Char) (t : List Char)
    (hl : ∀ x ∈ l, p x = true) (hc : p c = false) :
    (l ++ c :: t).takeWhile p = l ∧ (l ++ c :: t).dropWhile p = c :: t := by
  induction l with
  | nil => simp [List.takeWhile, List.dropWhile, hc]
  | cons x xs ih =>
    have hx : p x = true := hl x (by simp)
    have ih2 := ih (fun y hy => hl y (by simp [hy]))
    simp only [List.cons_append, List.takeWhile_cons, List.dropWhile_cons, hx, if_true,
      ih2.1, ih2.2]
    simp

/- ### Claim C1 -/

/-- Claim C1 (amended): the lens-construction, f-number and
measurement-with-unit normalizers always return a string and fall back
to the identity when their expected pattern is absent; the focal-length
normalizer has no identity fallback: whenever its stripped value lacks
the marker and does not parse as a number it raises (`none`) instead of
returning the input. -/
theorem C1_thm : ∀ (s u : String),
    (lensConstParse s.data = none → format_lens_const s = s) ∧
    (fnumSearch s.data = none → format_f_number s = s) ∧
    (s.data.contains '×' = false → findallNum s.data = [] → format_cvt s u = s) ∧
    (containsSub dxL (stripFocal s) = false → pyFloat (stripFocal s) = none →
      format_focal s = none) := by
  intro s u
  refine ⟨?_, ?_, ?_, ?_⟩
  · intro h
    simp [format_lens_const, h]
  · intro h
    simp [format_f_number, h]
  · intro h1 h2
    simp only [format_cvt, h2]
    rw [if_neg (by rw [h1]; exact Bool.false_ne_true)]
  · intro h1 h2
    rw [format_focal_plain s h1, h2]
    rfl

/-- Claim C1 as stated is false: on `"abc"`, which matches no
normalizer pattern, `format_focal` raises (modelled `none`) rather than
returning `"abc"` unchanged. -/
theorem C1_counterexample :
    format_focal "abc" = none ∧ format_focal "abc" ≠ some "abc" := by
  have h : format_focal "abc" = none := by
    simp only [format_focal, stripFocal, replaceAll,
      splitOnL_eq_splitOnF (show mmL ≠ [] by decide),
      splitOnL_eq_splitOnF (show ykL ≠ [] by decide),
      splitOnL_eq_splitOnF (show dxL ≠ [] by decide)]
    decide
  exact ⟨h, by rw [h]; simp⟩

/-- Witness for C1: every hypothesis of `C1_thm` is satisfiable at
concrete inputs. -/
theorem C1_witness :
    format_lens_const "F2.8" = "F2.8" ∧ format_f_number "F2.8" = "F2.8" ∧
    format_cvt "no numbers" "mm" = "no numbers" ∧ format_focal "F2.8" = none := by
  have h1 : containsSub dxL (stripFocal "F2.8") = false := by
    simp only [stripFocal, replaceAll,
      splitOnL_eq_splitOnF (show mmL ≠ [] by decide),
      splitOnL_eq_splitOnF (show ykL ≠ [] by decide)]
    decide
  have h2 : pyFloat (stripFocal "F2.8") = none := by
    simp only [stripFocal, replaceAll,
      splitOnL_eq_splitOnF (show mmL ≠ [] by decide),
      splitOnL_eq_splitOnF (show ykL ≠ [] by decide)]
    decide
  exact ⟨(C1_thm "F2.8" "mm").1 (by decide),
    (C1_thm "F2.8" "mm").2.1 (by decide),
    (C1_thm "no numbers" "mm").2.2.1 (by decide) (by decide),
    (C1_thm "F2.8" "mm").2.2.2 h1 h2⟩

/- ### Claim C2 -/

/-- Claim C2 (amended): when the stripped value splits at the marker
into exactly a part before and a part after, the `data-sort-value`
content is the text after the marker with its final character removed
(the closing bracket in the intended inputs) — it equals the second
number itself only when exactly one character follows it — the band is
classified by that truncated text parsed as a number, and the display
translates the marker to English; without the marker, sort value and
display value are the same number. -/
theorem C2_thm :
    (∀ (v : String) (pre seg : List Char) (q : ℚ),
      splitOnL dxL (stripFocal v) = [pre, seg] →
      pyFloat seg.dropLast = some q →
      format_focal v = some (String.mk ("! style = \"background:#".data
        ++ (focalColor q).data ++ ";\" data-sort-value=\"".data ++ seg.dropLast
        ++ "\"|".data ++ (pre ++ engL ++ seg)))) ∧
    (∀ (v : String) (q : ℚ),
      containsSub dxL (stripFocal v) = false →
      pyFloat (stripFocal v) = some q →
      format_focal v = some (String.mk ("! style = \"background:#".data
        ++ (focalColor q).data ++ ";\" |".data ++ stripFocal v))) := by
  constructor
  · exact format_focal_marker
  · intro v q hcon hq
    rw [format_focal_plain v hcon, hq]
    rfl

/-- Claim C2 as stated is false: in
`"18mmフルサイズ換算:27mm"` the marker is
followed by the second number 27, but the emitted attribute content is
the truncated `"2"`, not `"27"`. -/
theorem C2_counterexample :
    format_focal "18mmフルサイズ換算:27mm" =
      some "! style = \"background:#fdd;\" data-sort-value=\"2\"|18full frame equivalent: 27" ∧
    containsSub "data-sort-value=\"27\"".data
      "! style = \"background:#fdd;\" data-sort-value=\"2\"|18full frame equivalent: 27".data
      = false := by
  constructor
  · simp only [format_focal, stripFocal, replaceAll,
      splitOnL_eq_splitOnF (show mmL ≠ [] by decide),
      splitOnL_eq_splitOnF (show ykL ≠ [] by decide),
      splitOnL_eq_splitOnF (show dxL ≠ [] by decide)]
    decide
  · decide

/-- Witness for C2 at the bracketed shape the site uses, where the
truncation removes exactly the closing bracket. -/
theorem C2_witness :
    splitOnL dxL (stripFocal "18mm(フルサイズ換算:27mm)") = ["18(".data, "27)".data] ∧
    pyFloat ("27)".data).dropLast = some 27 ∧
    format_focal "18mm(フルサイズ換算:27mm)" =
      some "! style = \"background:#fed;\" data-sort-value=\"27\"|18(full frame equivalent: 27)" := by
  have h1 : splitOnL dxL (stripFocal "18mm(フルサイズ換算:27mm)") = ["18(".data, "27)".data] := by
    simp only [stripFocal, replaceAll,
      splitOnL_eq_splitOnF (show mmL ≠ [] by decide),
      splitOnL_eq_splitOnF (show ykL ≠ [] by decide),
      splitOnL_eq_splitOnF (show dxL ≠ [] by decide)]
    decide
  have h2 : pyFloat ("27)".data).dropLast = some 27 := by decide
  refine ⟨h1, h2, ?_⟩
  have h3 := C2_thm.1 "18mm(フルサイズ換算:27mm)" "18(".data "27)".data 27 h1 h2
  rw [h3]
  decide

/- ### Claim C3 -/

/-- Claim C3: `format_cvt` emits a joined cvt template when the value
contains the multiplication separator, a single-number cvt template when
it does not but a numeric substring exists, and returns the input
unchanged when no numeric substring exists; unit `"m"` becomes `"m|ft"`
and every other unit passes through. -/
theorem C3_thm :
    (∀ (value unit : String),
      (value.data.contains '×' = true →
        format_cvt value unit = String.mk ("\x7b\x7bcvt|".data
          ++ List.intercalate "|×|".data (findallNum value.data)
          ++ "|".data ++ (unit_target unit).data ++ "\x7d\x7d".data)) ∧
      (∀ (n : List Char) (t : List (List Char)),
        value.data.contains '×' = false → findallNum value.data = n :: t →
        format_cvt value unit = String.mk ("\x7b\x7bcvt|".data ++ n
          ++ "|".data ++ (unit_target unit).data ++ "\x7d\x7d".data)) ∧
      (value.data.contains '×' = false → findallNum value.data = [] →
        format_cvt value unit = value) ∧
      unit_target "m" = "m|ft" ∧
      (unit ≠ "m" → unit_target unit = unit)) ∧
    format_cvt "35mm" "mm" = "\x7b\x7bcvt|35|mm\x7d\x7d" ∧
    format_cvt "63.5×42mm" "mm" = "\x7b\x7bcvt|63.5|×|42|mm\x7d\x7d" ∧
    format_cvt "0.5m" "m" = "\x7b\x7bcvt|0.5|m|ft\x7d\x7d" := by
  refine ⟨?_, by decide, by decide, by decide⟩
  intro value unit
  refine ⟨?_, ?_, ?_, by decide, ?_⟩
  · intro h1
    simp only [format_cvt]
    rw [if_pos h1]
  · intro n t h1 h2
    simp only [format_cvt, h2]
    rw [if_neg (by rw [h1]; exact Bool.false_ne_true)]
  · intro h1 h2
    simp only [format_cvt, h2]
    rw [if_neg (by rw [h1]; exact Bool.false_ne_true)]
  · intro h
    simp [unit_target, h]

/-- Witness for C3: hypotheses of every conjunct are satisfiable. -/
theorem C3_witness :
    format_cvt "63.5×42mm" "mm" = String.mk ("\x7b\x7bcvt|".data
      ++ List.intercalate "|×|".data (findallNum "63.5×42mm".data)
      ++ "|".data ++ (unit_target "mm").data ++ "\x7d\x7d".data) ∧
    format_cvt "35mm" "mm" = String.mk ("\x7b\x7bcvt|".data ++ "35".data
      ++ "|".data ++ (unit_target "mm").data ++ "\x7d\x7d".data) ∧
    format_cvt "none" "mm" = "none" ∧
    unit_target "g" = "g" := by
  exact ⟨((C3_thm.1 "63.5×42mm" "mm").1 (by decide)),
    ((C3_thm.1 "35mm" "mm").2.1 "35".data [] (by decide) (by decide)),
    ((C3_thm.1 "none" "mm").2.2.1 (by decide) (by decide)),
    ((C3_thm.1 "x" "g").2.2.2.2 (by decide))⟩

/- ### Claim C4 -/

/-- Claim C4: the focal-length band classification is `<21 → "fdd"`,
`[21,40) → "fed"`, `[40,65) → "ffd"`, `≥65 → "dfd"`, and in particular
maps 20.9, 21, 39.9, 40, 64.9, 65 to the spec's colors. -/
theorem C4_thm : ∀ v : ℚ,
    (v < 21 → focalColor v = "fdd") ∧
    (21 ≤ v → v < 40 → focalColor v = "fed") ∧
    (40 ≤ v → v < 65 → focalColor v = "ffd") ∧
    (65 ≤ v → focalColor v = "dfd") ∧
    focalColor (Rat.divInt 209 10) = "fdd" ∧ focalColor 21 = "fed" ∧
    focalColor (Rat.divInt 399 10) = "fed" ∧ focalColor 40 = "ffd" ∧
    focalColor (Rat.divInt 649 10) = "ffd" ∧ focalColor 65 = "dfd" := by
  intro v
  refine ⟨?_, ?_, ?_, ?_, by decide, by decide, by decide, by decide, by decide, by decide⟩
  · intro h
    simp [focalColor, h]
  · intro h1 h2
    simp [focalColor, h2, not_lt.mpr h1]
  · intro h1 h2
    have h21 : ¬v < 21 := not_lt.mpr (le_trans (by norm_num) h1)
    have h40 : ¬v < 40 := not_lt.mpr h1
    simp [focalColor, h21, h40, h2]
  · intro h1
    have h21 : ¬v < 21 := not_lt.mpr (le_trans (by norm_num) h1)
    have h40 : ¬v < 40 := not_lt.mpr (le_trans (by norm_num) h1)
    have h65 : ¬v < 65 := not_lt.mpr h1
    simp [focalColor, h21, h40, h65]

/-- Witness for C4: each band hypothesis is satisfiable. -/
theorem C4_witness :
    focalColor 10 = "fdd" ∧ focalColor 30 = "fed" ∧
    focalColor 50 = "ffd" ∧ focalColor 90 = "dfd" := by
  exact ⟨(C4_thm 10).1 (by decide),
    (C4_thm 30).2.1 (by decide) (by decide),
    (C4_thm 50).2.2.1 (by decide) (by decide),
    (C4_thm 90).2.2.2.1 (by decide)⟩

/- ### Claim C5 -/

/-- Claim C5: on an input starting `<N>群<M>枚` (non-empty digit runs
`N`, `M`), the lens-construction normalizer returns `<M>e/<N>g`; on any
input the anchored pattern does not match, it returns the input
unchanged. -/
theorem C5_thm :
    (∀ (g e rest : List Char), g ≠ [] → (∀ c ∈ g, c.isDigit = true) →
      e ≠ [] → (∀ c ∈ e, c.isDigit = true) →
      format_lens_const (String.mk (g ++ '群' :: (e ++ '枚' :: rest))) =
        String.mk (e ++ "e/".data ++ g ++ "g".data)) ∧
    (∀ s : String, lensConstParse s.data = none → format_lens_const s = s) := by
  constructor
  · intro g e rest hg0 hg he0 he
    have h1 := takeWhile_append_cons (p := Char.isDigit) '群' (e ++ '枚' :: rest) hg
      (by decide)
    have h2 := takeWhile_append_cons (p := Char.isDigit) '枚' rest he (by decide)
    have hparse : lensConstParse (g ++ '群' :: (e ++ '枚' :: rest)) = some (g, e) := by
      simp only [lensConstParse, h1.1, h1.2, h2.1, h2.2]
      simp [hg0, he0]
    simp [format_lens_const, hparse]
  · intro s h
    simp [format_lens_const, h]

/-- Witness for C5: the pattern case at `8群10枚`, the fallback at a
non-matching string. -/
theorem C5_witness :
    format_lens_const "8群10枚" = "10e/8g" ∧
    format_lens_const "Aspherical" = "Aspherical" := by
  constructor
  · have h := C5_thm.1 "8".data "10".data [] (by decide) (by decide)
      (by decide) (by decide)
    exact (by decide : format_lens_const "8群10枚" =
      format_lens_const (String.mk ("8".data ++ '群' :: ("10".data ++ '枚' :: [])))) ▸ h
  · exact C5_thm.2 "Aspherical" (by decide)

/- ### Claim C6 -/

/-- Claim C6: the f-number normalizer sends `"1:2.5"` and `"1 : 2.5"`
to the same `f/` template carrying `"2.5"`, and returns any input in
which the pattern `1 ?: ?<number>` is absent unchanged. -/
theorem C6_thm :
    format_f_number "1:2.5" = "\x7b\x7bf/|2.5\x7d\x7d" ∧
    format_f_number "1 : 2.5" = "\x7b\x7bf/|2.5\x7d\x7d" ∧
    format_f_number "1:2.5" = format_f_number "1 : 2.5" ∧
    (∀ s : String, fnumSearch s.data = none → format_f_number s = s) := by
  refine ⟨by decide, by decide, by decide, ?_⟩
  intro s h
  simp [format_f_number, h]

/-- Witness for C6: the fallback hypothesis is satisfiable. -/
theorem C6_witness : format_f_number "F2.8" = "F2.8" :=
  C6_thm.2.2.2 "F2.8" (by decide)

/- ### Claim C7 -/

theorem rstripSlash_append_slash (s : List Char) :
    rstripSlash (s ++ ['/']) = rstripSlash s := by
  simp [rstripSlash, List.dropWhile]

/-- Claim C7: a marker-bearing href is kept by lens-link discovery iff
the mount URL is a string prefix of it and the two differ after
stripping trailing slashes; in particular the mount's own URL, with or
without a trailing slash, is never kept, and the result has no
duplicates. -/
theorem C7_thm : ∀ (mount : String) (hrefs : List String),
    (∀ l : String, containsSub "voigtlander".data l.data = true →
      (l ∈ get_lens_links mount hrefs ↔
        l ∈ hrefs ∧ mount.data.isPrefixOf l.data = true ∧
          rstripSlash l.data ≠ rstripSlash mount.data)) ∧
    (get_lens_links mount hrefs).Nodup ∧
    mount ∉ get_lens_links mount hrefs ∧
    (mount ++ "/") ∉ get_lens_links mount hrefs := by
  intro mount hrefs
  refine ⟨?_, List.nodup_dedup _, ?_, ?_⟩
  · intro l hmark
    simp [get_lens_links, List.mem_dedup, List.mem_filter, keepLensLink, hmark, and_assoc]
  · intro hmem
    simp [get_lens_links, List.mem_dedup, List.mem_filter, keepLensLink] at hmem
  · intro hmem
    simp [get_lens_links, List.mem_dedup, List.mem_filter, keepLensLink,
      String.data_append, rstripSlash_append_slash] at hmem

/-- Witness for C7: the characterization at a concrete page. -/
theorem C7_witness :
    containsSub "voigtlander".data "https://x/voigtlander/vm/50mm/".data = true ∧
    ("https://x/voigtlander/vm/50mm/" ∈
      get_lens_links "https://x/voigtlander/vm/"
        ["https://x/voigtlander/vm/50mm/", "https://x/voigtlander/vm/",
          "https://x/voigtlander/em/35mm/"] ↔
      "https://x/voigtlander/vm/50mm/" ∈
        ["https://x/voigtlander/vm/50mm/", "https://x/voigtlander/vm/",
          "https://x/voigtlander/em/35mm/"] ∧
      ("https://x/voigtlander/vm/" : String).data.isPrefixOf
        ("https://x/voigtlander/vm/50mm/" : String).data = true ∧
      rstripSlash ("https://x/voigtlander/vm/50mm/" : String).data ≠
        rstripSlash ("https://x/voigtlander/vm/" : String).data) :=
  ⟨by decide, (C7_thm "https://x/voigtlander/vm/"
    ["https://x/voigtlander/vm/50mm/", "https://x/voigtlander/vm/",
      "https://x/voigtlander/em/35mm/"]).1 "https://x/voigtlander/vm/50mm/" (by decide)⟩

/- ### Claim C8 -/

/-- Claim C8: when every record's sort key computes, the rendered order
is a permutation of the records sorted ascending by the first numeric
token of the stored focal-length value; a record with no focal-length
field gets sort key 0, the same key as a record whose focal length is
`"0"`, rather than an error. -/
theorem C8_thm : ∀ rs : List LensRecord,
    (∀ r ∈ rs, (focalSortKey r.focal_length).isSome) →
    (∃ l, sortLenses rs = some l ∧ l.Perm rs ∧
      l.Pairwise (fun a b => recKey a ≤ recKey b)) ∧
    focalSortKey none = some 0 ∧ focalSortKey (some "0") = some 0 := by
  intro rs h
  refine ⟨?_, by decide, by decide⟩
  refine ⟨rs.mergeSort (fun a b => decide (recKey a ≤ recKey b)), ?_, ?_, ?_⟩
  · simp only [sortLenses]
    rw [if_pos (by rw [List.all_eq_true]; exact h)]
  · exact List.mergeSort_perm rs _
  · have hs := @List.sorted_mergeSort LensRecord
      (fun a b => decide (recKey a ≤ recKey b))
      (fun a b c hab hbc => decide_eq_true
        (le_trans (of_decide_eq_true hab) (of_decide_eq_true hbc)))
      (fun a b => by
        rcases le_total (recKey a) (recKey b) with hle | hle <;>
          simp [decide_eq_true hle])
      rs
    exact hs.imp (fun hab => of_decide_eq_true hab)

/-- Witness for C8 on a two-record list, one record lacking the
focal-length field. -/
theorem C8_witness :
    (∀ r ∈ ([⟨"u1", "a", some "50mm", none, none, none, none, none, none, none⟩,
        ⟨"u2", "b", none, none, none, none, none, none, none, none⟩] : List LensRecord),
      (focalSortKey r.focal_length).isSome) ∧
    (∃ l, sortLenses
        ([⟨"u1", "a", some "50mm", none, none, none, none, none, none, none⟩,
          ⟨"u2", "b", none, none, none, none, none, none, none, none⟩] : List LensRecord)
        = some l ∧
      l.Perm ([⟨"u1", "a", some "50mm", none, none, none, none, none, none, none⟩,
          ⟨"u2", "b", none, none, none, none, none, none, none, none⟩] : List LensRecord) ∧
      l.Pairwise (fun a b => recKey a ≤ recKey b)) :=
  ⟨by decide, (C8_thm _ (by decide)).1⟩

/- ### Claim C9 -/

/-- Claim C9: a cache hit returns the cached body with no network call
and no cache change; on a miss, one GET happens — a failing status
raises and writes nothing, a success persists the body under the key
computed from the URL and returns it. -/
theorem C9_thm : ∀ (key : String → String) (net : String → HttpResponse)
    (cache : List (String × String)) (url : String),
    (∀ body, lookupCache cache (key url) = some body →
      fetch_with_cache key net cache url = (FetchResult.ok body cache, false)) ∧
    (lookupCache cache (key url) = none → net url = HttpResponse.failure →
      fetch_with_cache key net cache url = (FetchResult.error cache, true)) ∧
    (∀ body, lookupCache cache (key url) = none → net url = HttpResponse.success body →
      fetch_with_cache key net cache url =
        (FetchResult.ok body ((key url, body) :: cache), true) ∧
      lookupCache ((key url, body) :: cache) (key url) = some body) := by
  intro key net cache url
  refine ⟨?_, ?_, ?_⟩
  · intro body h
    simp [fetch_with_cache, h]
  · intro h1 h2
    simp [fetch_with_cache, h1, h2]
  · intro body h1 h2
    refine ⟨by simp [fetch_with_cache, h1, h2], ?_⟩
    simp [lookupCache, List.find?]

/-- Witness for C9: all three branches at concrete stores. -/
theorem C9_witness :
    fetch_with_cache (fun u => u) (fun _ => HttpResponse.failure)
      [("u", "cached")] "u" = (FetchResult.ok "cached" [("u", "cached")], false) ∧
    fetch_with_cache (fun u => u) (fun _ => HttpResponse.failure) [] "u" =
      (FetchResult.error [], true) ∧
    (fetch_with_cache (fun u => u) (fun _ => HttpResponse.success "body") [] "u" =
      (FetchResult.ok "body" [("u", "body")], true) ∧
      lookupCache [("u", "body")] "u" = some "body") :=
  ⟨(C9_thm (fun u => u) (fun _ => HttpResponse.failure) [("u", "cached")] "u").1
      "cached" (by decide),
    (C9_thm (fun u => u) (fun _ => HttpResponse.failure) [] "u").2.1
      (by decide) rfl,
    (C9_thm (fun u => u) (fun _ => HttpResponse.success "body") [] "u").2.2
      "body" (by decide) rfl⟩

/- ### Claim C10 -/

theorem dictGet_insert_self (d : List (String × String)) (k v : String) :
    dictGet (dictInsert d k v) k = some v := by
  induction d with
  | nil => simp [dictInsert, dictGet, List.find?]
  | cons p rest ih =>
    by_cases hp : p.1 = k
    · simp [dictInsert, hp, dictGet, List.find?]
    · simpa [dictInsert, hp, dictGet, List.find?] using ih

theorem dictGet_insert_ne (d : List (String × String)) (k v k' : String)
    (h : k' ≠ k) : dictGet (dictInsert d k v) k' = dictGet d k' := by
  have hkk : ¬(k = k') := fun hc => h hc.symm
  induction d with
  | nil => simp [dictInsert, dictGet, List.find?, hkk]
  | cons p rest ih =>
    by_cases hp : p.1 = k
    · have hpk : ¬(p.1 = k') := by rw [hp]; exact hkk
      simp [dictInsert, hp, dictGet, List.find?, hpk, hkk]
    · have hins : dictInsert (p :: rest) k v = p :: dictInsert rest k v := by
        simp [dictInsert, hp]
      rw [hins]
      by_cases hpk : p.1 = k'
      · simp [dictGet, List.find?, hpk]
      · simpa [dictGet, List.find?, hpk] using ih

theorem mem_keys_insert (d : List (String × String)) (k v x : String) :
    x ∈ (dictInsert d k v).map Prod.fst ↔ x ∈ d.map Prod.fst ∨ x = k := by
  induction d with
  | nil => simp [dictInsert]
  | cons p rest ih =>
    by_cases hp : p.1 = k
    · have hins : dictInsert (p :: rest) k v = (k, v) :: rest := by
        simp [dictInsert, hp]
      rw [hins]
      simp only [List.map_cons, List.mem_cons, hp]
      tauto
    · have hins : dictInsert (p :: rest) k v = p :: dictInsert rest k v := by
        simp [dictInsert, hp]
      rw [hins]
      simp only [List.map_cons, List.mem_cons, ih]
      tauto

theorem keys_nodup_insert (d : List (String × String)) (k v : String)
    (h : (d.map Prod.fst).Nodup) : ((dictInsert d k v).map Prod.fst).Nodup := by
  induction d with
  | nil => simp [dictInsert]
  | cons p rest ih =>
    simp only [List.map_cons, List.nodup_cons] at h
    by_cases hp : p.1 = k
    · have hins : dictInsert (p :: rest) k v = (k, v) :: rest := by
        simp [dictInsert, hp]
      rw [hins]
      simp only [List.map_cons, List.nodup_cons]
      exact ⟨by rw [← hp]; exact h.1, h.2⟩
    · have hins : dictInsert (p :: rest) k v = p :: dictInsert rest k v := by
        simp [dictInsert, hp]
      rw [hins]
      simp only [List.map_cons, List.nodup_cons]
      refine ⟨?_, ih h.2⟩
      rw [mem_keys_insert]
      rintro (hc | hc)
      · exact h.1 hc
      · exact hp hc

theorem getLast?_cons_or {α : Type} (a : α) (l : List α) :
    (a :: l).getLast? = Option.or l.getLast? (some a) := by
  induction l generalizing a with
  | nil => rfl
  | cons b t ih =>
    rw [List.getLast?_cons_cons, ih b]
    cases t.getLast? <;> rfl

/-- The fold of `get_mount_pages` over any starting dictionary: lookup
of a non-accessories name yields the value of the last matching item,
falling back to the starting dictionary. -/
theorem mountFold_get (name : String) (hn : name ≠ "ACCESSORIES") :
    ∀ (items : List (String × String)) (d : List (String × String)),
    dictGet (items.foldl
        (fun d p => if p.1 = "ACCESSORIES" then d else dictInsert d p.1 p.2) d) name
      = Option.or (((items.filter (fun p => p.1 = name)).map Prod.snd).getLast?)
          (dictGet d name) := by
  intro items
  induction items with
  | nil =>
    intro d
    simp
  | cons p rest ih =>
    intro d
    simp only [List.foldl_cons]
    by_cases hp : p.1 = "ACCESSORIES"
    · have hne : ¬(p.1 = name) := by
        rw [hp]
        exact fun hc => hn hc.symm
      rw [if_pos hp, ih d]
      simp [List.filter_cons, hne]
    · rw [if_neg hp, ih (dictInsert d p.1 p.2)]
      by_cases hpn : p.1 = name
      · have hget : dictGet (dictInsert d p.1 p.2) name = some p.2 := by
          rw [hpn]
          exact dictGet_insert_self d name p.2
        have hfil : (p :: rest).filter (fun q => q.1 = name) =
            p :: rest.filter (fun q => q.1 = name) := by
          simp [List.filter_cons, hpn]
        rw [hget, hfil]
        simp only [List.map_cons, getLast?_cons_or]
        cases ((rest.filter (fun q => q.1 = name)).map Prod.snd).getLast? <;>
          cases dictGet d name <;> rfl
      · have hget : dictGet (dictInsert d p.1 p.2) name = dictGet d name :=
          dictGet_insert_ne d p.1 p.2 name (fun hc => hpn hc.symm)
        rw [hget]
        simp [List.filter_cons, hpn]

theorem mountFold_nodup :
    ∀ (items : List (String × String)) (d : List (String × String)),
    (d.map Prod.fst).Nodup →
    ((items.foldl
        (fun d p => if p.1 = "ACCESSORIES" then d else dictInsert d p.1 p.2) d).map
      Prod.fst).Nodup := by
  intro items
  induction items with
  | nil => intro d h; simpa using h
  | cons p rest ih =>
    intro d h
    simp only [List.foldl_cons]
    by_cases hp : p.1 = "ACCESSORIES"
    · rw [if_pos hp]
      exact ih d h
    · rw [if_neg hp]
      exact ih _ (keys_nodup_insert d p.1 p.2 h)

/-- Claim C10: mount discovery maps every discovered display name to
exactly one URL (keys are unique), and a name occurring several times
(never `"ACCESSORIES"`) maps to the URL of its last occurrence in
document order. -/
theorem C10_thm : ∀ (items : List (String × String)) (name : String),
    ((get_mount_pages items).map Prod.fst).Nodup ∧
    (name ≠ "ACCESSORIES" →
      dictGet (get_mount_pages items) name =
        ((items.filter (fun p => p.1 = name)).map Prod.snd).getLast?) := by
  intro items name
  constructor
  · exact mountFold_nodup items [] (by simp)
  · intro hn
    unfold get_mount_pages
    rw [mountFold_get name hn items []]
    simp [dictGet]

/-- Witness for C10: two entries named `"VM"`; the mapping holds the
second URL. -/
theorem C10_witness :
    ("VM" : String) ≠ "ACCESSORIES" ∧
    dictGet (get_mount_pages [("VM", "u1"), ("VM", "u2"), ("ACCESSORIES", "a")]) "VM" =
      (([("VM", "u1"), ("VM", "u2"), ("ACCESSORIES", "a")].filter
        (fun p => p.1 = "VM")).map Prod.snd).getLast? ∧
    dictGet (get_mount_pages [("VM", "u1"), ("VM", "u2"), ("ACCESSORIES", "a")]) "VM" =
      some "u2" :=
  ⟨by decide,
    (C10_thm [("VM", "u1"), ("VM", "u2"), ("ACCESSORIES", "a")] "VM").2 (by decide),
    by decide⟩
